import Mathlib

/-!
Verification of the znode threshold key custody engine.

The components embedded here, translated from the JavaScript source:
- the Shamir secret splitter (the `secrets.js-grempe` dependency used by every
  component; modelled from the spec, see below);
- `SecureSigningSystem` and `RefreshCoordinator` (`secure-signing-system.js`);
- `MoneroShamirMultisig.reconstruct` (`monero-shamir.js`) and
  `ShamirMultisigManager.reconstructAndSign` (`shamir-integration.js`);
- `KeyOwnershipManager` (`key-ownership-manager.js`);
- `CrossClusterBackupManager` (`reset-registry.js`).
-/

namespace Znode

/-- Error taxonomy of the custody engine (spec section 7), covering the
`throw new Error(...)` sites of the embedded functions. -/
inductive Err where
  | insufficientShares (got : Nat)
  | epochMismatch
  | noKey
  | keyExpired (age : Nat)
  | cardinalityMismatch (got : Nat)
  | unknownOwner
  | noKeysToResplit
  | distributeFailed
  deriving DecidableEq, Repr

/-! ## Secret splitter (spec-modelled)

The splitter used throughout the repository is the external library
`secrets.js-grempe`; its code is not part of the repository.  The definitions
below are therefore modelled from the spec (section 4.1): `split` evaluates the
polynomial `secret + coeffs[0]*x + coeffs[1]*x^2 + ...` at distinct evaluation
points, one per share, and `combine` is Lagrange interpolation evaluated at 0.
The threshold `K` equals `coeffs.length + 1` (the number of polynomial
coefficients). -/

/-- Modelled from the spec: Horner evaluation of the polynomial whose
coefficient list (constant term first) is `cs`. -/
def polyEval {F : Type} [Field F] : List F → F → F
  | [], _ => 0
  | c :: rest, x => c + x * polyEval rest x

/-- Modelled from the spec: the share value at evaluation point `x` of the
sharing of `secret` with random tail coefficients `coeffs`. -/
def shamirShare {F : Type} [Field F] (secret : F) (coeffs : List F) (x : F) : F :=
  polyEval (secret :: coeffs) x

/-- Modelled from the spec: `split(secret, N, K)` with `K = coeffs.length + 1`,
producing one share value per evaluation point `x i`. -/
def splitShares {F : Type} [Field F] {N : Nat} (secret : F) (coeffs : List F)
    (x : Fin N → F) : Fin N → F :=
  fun i => shamirShare secret coeffs (x i)

/-- Modelled from the spec: `combine` on the sub-multiset of shares indexed by
`s`, i.e. Lagrange interpolation through the points `(x i, y i)` for `i ∈ s`,
evaluated at `0`. -/
def combineOn {F : Type} [Field F] {N : Nat} (s : Finset (Fin N))
    (x y : Fin N → F) : F :=
  ∑ i ∈ s, y i * ∏ j ∈ s.erase i, x j * (x j - x i)⁻¹

lemma polyEval_eq_sum {F : Type} [Field F] (cs : List F) (z : F) :
    polyEval cs z = ∑ i : Fin cs.length, cs.get i * z ^ (i : ℕ) := by
  induction cs with
  | nil => simp [polyEval]
  | cons c rest ih =>
    rw [polyEval, ih]
    simp only [List.length_cons]
    rw [Fin.sum_univ_succ]
    simp only [List.get_cons_zero, Fin.val_zero, pow_zero, mul_one, Fin.val_succ,
      Finset.mul_sum]
    congr 1
    refine Finset.sum_congr rfl (fun i _ => ?_)
    rw [List.get_cons_succ', pow_succ]
    ring

lemma combineOn_eq_eval_interpolate {F : Type} [Field F] {N : Nat}
    (s : Finset (Fin N)) (x y : Fin N → F) :
    combineOn s x y = (Lagrange.interpolate s x y).eval 0 := by
  rw [combineOn, Lagrange.interpolate_apply, Polynomial.eval_finset_sum]
  refine Finset.sum_congr rfl (fun i _ => ?_)
  rw [Polynomial.eval_mul, Polynomial.eval_C, Lagrange.basis, Polynomial.eval_prod]
  congr 1
  refine Finset.prod_congr rfl (fun j _ => ?_)
  rw [Lagrange.basisDivisor, Polynomial.eval_mul, Polynomial.eval_C, Polynomial.eval_sub,
    Polynomial.eval_X, Polynomial.eval_C, zero_sub, ← neg_sub (x i) (x j), inv_neg]
  ring

lemma eval_coeffPoly {F : Type} [Field F] (cs : List F) (z : F) :
    (∑ i : Fin cs.length, Polynomial.C (cs.get i) * Polynomial.X ^ (i : ℕ)).eval z
      = polyEval cs z := by
  rw [polyEval_eq_sum, Polynomial.eval_finset_sum]
  simp

/-- Core of the round-trip property: combining any subset of at least
`coeffs.length + 1` shares returns the secret. -/
lemma combineOn_splitShares {F : Type} [Field F] {N : Nat}
    (secret : F) (coeffs : List F) (x : Fin N → F)
    (hx : ∀ i j, x i = x j → i = j) (s : Finset (Fin N))
    (hcard : coeffs.length + 1 ≤ s.card) :
    combineOn s x (splitShares secret coeffs x) = secret := by
  classical
  have hinj : Function.Injective x := fun a b h => hx a b h
  set cs : List F := secret :: coeffs with hcs
  set p : Polynomial F :=
    ∑ i : Fin cs.length, Polynomial.C (cs.get i) * Polynomial.X ^ (i : ℕ) with hp
  have hdeg : p.degree < (cs.length : WithBot ℕ) := Polynomial.degree_sum_fin_lt _
  have hlen : cs.length ≤ s.card := by
    simpa [hcs] using hcard
  have hdeg2 : p.degree < (s.card : WithBot ℕ) :=
    lt_of_lt_of_le hdeg (by exact_mod_cast hlen)
  have hvals : splitShares secret coeffs x = fun i => p.eval (x i) := by
    funext i
    rw [splitShares, shamirShare, hp, eval_coeffPoly]
  have hint : Lagrange.interpolate s x (fun i => p.eval (x i)) = p :=
    (Lagrange.eq_interpolate (Function.Injective.injOn hinj) hdeg2).symm
  rw [combineOn_eq_eval_interpolate, hvals, hint, eval_coeffPoly]
  simp [hcs, polyEval]

/-- C4: for every secret `S` and valid `(K, N)` with `1 < K ≤ N` (here
`K = coeffs.length + 1`, with `K ≤ N` forced by the existence of the
`K`-subsets), combining any `K`-subset of the `N` shares produced by
`split(S, N, K)` reconstructs exactly `S`, and any two distinct `K`-subsets of
the same share set reconstruct the same `S`. -/
theorem split_combine_roundtrip {F : Type} [Field F] {N : Nat}
    (secret : F) (coeffs : List F) (x : Fin N → F)
    (hx : ∀ i j, x i = x j → i = j)
    (_hK : 1 < coeffs.length + 1)
    (s t : Finset (Fin N))
    (hs : s.card = coeffs.length + 1) (ht : t.card = coeffs.length + 1) :
    combineOn s x (splitShares secret coeffs x) = secret ∧
      combineOn t x (splitShares secret coeffs x)
        = combineOn s x (splitShares secret coeffs x) := by
  have h1 := combineOn_splitShares secret coeffs x hx s (le_of_eq hs.symm)
  have h2 := combineOn_splitShares secret coeffs x hx t (le_of_eq ht.symm)
  exact ⟨h1, by rw [h1, h2]⟩

instance : Fact (Nat.Prime 11) := ⟨by norm_num⟩

instance : Fact (Nat.Prime 13) := ⟨by norm_num⟩

/-- Witness for `split_combine_roundtrip`: a concrete 2-of-3 sharing of the
secret `5` over `ZMod 11`, combined on two different 2-subsets. -/
theorem split_combine_roundtrip_witness :
    ((∀ i j : Fin 3, (fun i : Fin 3 => ((i : ZMod 11) + 1)) i
        = (fun i : Fin 3 => ((i : ZMod 11) + 1)) j → i = j) ∧
      1 < [(2 : ZMod 11)].length + 1 ∧
      ({0, 1} : Finset (Fin 3)).card = [(2 : ZMod 11)].length + 1 ∧
      ({1, 2} : Finset (Fin 3)).card = [(2 : ZMod 11)].length + 1) ∧
    (combineOn {0, 1} (fun i : Fin 3 => ((i : ZMod 11) + 1))
        (splitShares 5 [2] (fun i : Fin 3 => ((i : ZMod 11) + 1))) = 5 ∧
      combineOn {1, 2} (fun i : Fin 3 => ((i : ZMod 11) + 1))
          (splitShares 5 [2] (fun i : Fin 3 => ((i : ZMod 11) + 1)))
        = combineOn {0, 1} (fun i : Fin 3 => ((i : ZMod 11) + 1))
            (splitShares 5 [2] (fun i : Fin 3 => ((i : ZMod 11) + 1)))) :=
  ⟨⟨by decide, by decide, by decide, by decide⟩,
    split_combine_roundtrip 5 [2] (fun i : Fin 3 => ((i : ZMod 11) + 1))
      (by decide) (by decide) {0, 1} {1, 2} (by decide) (by decide)⟩

/-! ## SecureSigningSystem (`secure-signing-system.js`, lines 9-122)

State of one signing session.  `myKey`/`keyTimestamp` mirror the two fields of
the JS class; clock values are passed explicitly (`Date.now()` becomes the
`now` argument).  The share combiner (`secrets.combine`) is a parameter.  The
auto-destruct timer set in `reconstructMyKey` is cancelled synchronously
(`clearTimeout` runs in the same synchronous block), so it has no observable
effect and is not modelled. -/
structure SigningState (κ : Type) where
  myKey : Option κ
  keyTimestamp : Option Nat
  deriving DecidableEq, Repr

/-- `MAX_KEY_LIFETIME_MS` from the `SecureSigningSystem` constructor. -/
def MAX_KEY_LIFETIME_MS : Nat := 100

/-- `SecureSigningSystem.clearMyKey`: drops the key and timestamp (a no-op when
no key is held, matching the `if (this.myKey)` guard). -/
def clearMyKey {κ : Type} (st : SigningState κ) : SigningState κ :=
  if st.myKey.isSome then { myKey := none, keyTimestamp := none } else st

/-- `SecureSigningSystem.reconstructMyKey`: fails if fewer than 6 shares are
supplied, otherwise combines exactly the first 6 shares and stores the result
with the current time. -/
def reconstructMyKey {σ κ : Type} (combineFn : List σ → κ) (myShares : List σ)
    (now : Nat) (st : SigningState κ) : Except Err κ × SigningState κ :=
  if myShares.length < 6 then (.error (.insufficientShares myShares.length), st)
  else (.ok (combineFn (myShares.take 6)),
    { myKey := some (combineFn (myShares.take 6)), keyTimestamp := some now })

/-- `SecureSigningSystem.signAndClear`: fails when no key is held; fails with
`keyExpired` (clearing the key) when the key is older than
`MAX_KEY_LIFETIME_MS`; otherwise invokes the signing function and clears the
key on every exit path. -/
def signAndClear {κ π : Type} (signFn : κ → Except Err π) (now : Nat)
    (st : SigningState κ) : Except Err π × SigningState κ :=
  match st.myKey with
  | none => (.error .noKey, st)
  | some k =>
    let age := now - st.keyTimestamp.getD 0
    if MAX_KEY_LIFETIME_MS < age then (.error (.keyExpired age), clearMyKey st)
    else
      match signFn k with
      | .ok sig => (.ok sig, clearMyKey st)
      | .error e => (.error e, clearMyKey st)

/-- C2: a signing session still holding a key older than its TTL
(`MAX_KEY_LIFETIME_MS` = 100) is expired: the next `signAndClear` call fails
with a key-expired error, and the resulting session state holds no key (the
secret reference is dropped). -/
theorem signAndClear_expired {κ π : Type} (signFn : κ → Except Err π)
    (now ts : Nat) (k : κ) (st : SigningState κ)
    (hk : st.myKey = some k) (hts : st.keyTimestamp = some ts)
    (h : ts + MAX_KEY_LIFETIME_MS < now) :
    signAndClear signFn now st
      = (.error (.keyExpired (now - ts)), { myKey := none, keyTimestamp := none }) := by
  rw [signAndClear, hk]
  have hage : MAX_KEY_LIFETIME_MS < now - ts := by
    rw [MAX_KEY_LIFETIME_MS] at h ⊢
    omega
  simp only [hts, Option.getD_some]
  rw [if_pos hage, clearMyKey, hk]
  simp

/-- Witness for `signAndClear_expired`: a concrete session reconstructed at
time 0 and signed at time 101. -/
theorem signAndClear_expired_witness :
    ((⟨some 42, some 0⟩ : SigningState Nat).myKey = some 42 ∧
      (⟨some 42, some 0⟩ : SigningState Nat).keyTimestamp = some 0 ∧
      0 + MAX_KEY_LIFETIME_MS < 101) ∧
    signAndClear (fun k => .ok k) 101 (⟨some 42, some 0⟩ : SigningState Nat)
      = (.error (.keyExpired 101), { myKey := none, keyTimestamp := none }) :=
  ⟨⟨rfl, rfl, by decide⟩,
    signAndClear_expired (fun k => .ok k) 101 0 42 ⟨some 42, some 0⟩ rfl rfl (by decide)⟩

/-! ## RefreshCoordinator (`secure-signing-system.js`, lines 129-288) -/

/-- State of the refresh coordinator: the transient all-keys map (association
list preserving `Map` insertion order) plus the reconstruction timestamp. -/
structure CoordState (γ κ : Type) where
  allKeys : List (γ × κ)
  reconstructionTimestamp : Option Nat
  deriving DecidableEq, Repr

/-- JS `Map.set`: overwrite in place when the key is present, append
otherwise. -/
def mapSet {γ κ : Type} [DecidableEq γ] (m : List (γ × κ)) (a : γ) (k : κ) :
    List (γ × κ) :=
  if m.any (fun p => p.1 = a) then m.map (fun p => if p.1 = a then (a, k) else p)
  else m ++ [(a, k)]

/-- `RefreshCoordinator.clearAllKeys`: empties the map and resets the
timestamp (early-returns when the map is already empty). -/
def clearAllKeys {γ κ : Type} (st : CoordState γ κ) : CoordState γ κ :=
  if st.allKeys.isEmpty then st
  else { allKeys := [], reconstructionTimestamp := none }

/-- The reconstruction loop of `RefreshCoordinator.reconstructAllKeys`: for
each retiring member, requires at least 6 collected shares and combines the
first 6 into the transient map.  On error the partially filled state is
surfaced so the catch handler can clear it. -/
def reconLoop {γ κ σ : Type} [DecidableEq γ] (combineFn : List σ → κ)
    (collectedShares : γ → Option (List σ)) :
    List γ → CoordState γ κ → Except (Err × CoordState γ κ) (CoordState γ κ)
  | [], st => .ok st
  | a :: rest, st =>
    match collectedShares a with
    | none => .error (.insufficientShares 0, st)
    | some shares =>
      if shares.length < 6 then .error (.insufficientShares shares.length, st)
      else reconLoop combineFn collectedShares rest
        { st with allKeys := mapSet st.allKeys a (combineFn (shares.take 6)) }

/-- `RefreshCoordinator.reconstructAllKeys`: runs the loop; on success stamps
the reconstruction time, on failure clears all keys before re-raising. -/
def reconstructAllKeys {γ κ σ : Type} [DecidableEq γ] (combineFn : List σ → κ)
    (collectedShares : γ → Option (List σ)) (originalMembers : List γ)
    (now : Nat) (st : CoordState γ κ) : Except Err Unit × CoordState γ κ :=
  match reconLoop combineFn collectedShares originalMembers st with
  | .ok st1 => (.ok (), { st1 with reconstructionTimestamp := some now })
  | .error (e, stPartial) => (.error e, clearAllKeys stPartial)

/-- The default `threshold = 6` of `RefreshCoordinator.resplitAllKeys`. -/
def RESPLIT_DEFAULT_THRESHOLD : Nat := 6

/-- The share sets built by `RefreshCoordinator.resplitAllKeys`: for each held
key, split into `newMembers.length` shares at `threshold` and assign them to
the new members in order. -/
def resplitSets {γ κ σ : Type} (shareFn : κ → Nat → Nat → List σ)
    (newMembers : List γ) (threshold : Nat) (keys : List (γ × κ)) :
    List (γ × List (γ × σ)) :=
  keys.map (fun p => (p.1, newMembers.zip (shareFn p.2 newMembers.length threshold)))

/-- `RefreshCoordinator.resplitAllKeys`: fails when no keys are held,
otherwise re-splits every held key for the new member set. -/
def resplitAllKeys {γ κ σ : Type} (shareFn : κ → Nat → Nat → List σ)
    (newMembers : List γ) (threshold : Nat) (st : CoordState γ κ) :
    Except Err (List (γ × List (γ × σ))) :=
  if st.allKeys.isEmpty then .error .noKeysToResplit
  else .ok (resplitSets shareFn newMembers threshold st.allKeys)

/-- Result of one `performRefresh` call: the outcome, the final coordinator
state, and the share sets handed to the distribution callback (`none` when the
callback was never reached). -/
structure RefreshOutcome (γ κ σ : Type) where
  result : Except Err Unit
  state : CoordState γ κ
  distributed : Option (List (γ × List (γ × σ)))

/-- `RefreshCoordinator.performRefresh`: reconstruct all keys, re-split for
the new members (with the default threshold, no per-refresh threshold is
passed through), hand the share sets to the caller's distribution callback,
and clear all keys — also on every error path. -/
def performRefresh {γ κ σ : Type} [DecidableEq γ] (combineFn : List σ → κ)
    (shareFn : κ → Nat → Nat → List σ) (collectedShares : γ → Option (List σ))
    (originalMembers newMembers : List γ)
    (distributeFn : List (γ × List (γ × σ)) → Except Err Unit)
    (now : Nat) (st : CoordState γ κ) : RefreshOutcome γ κ σ :=
  match reconstructAllKeys combineFn collectedShares originalMembers now st with
  | (.error e, st1) => ⟨.error e, clearAllKeys st1, none⟩
  | (.ok _, st1) =>
    match resplitAllKeys shareFn newMembers RESPLIT_DEFAULT_THRESHOLD st1 with
    | .error e => ⟨.error e, clearAllKeys st1, none⟩
    | .ok sets =>
      match distributeFn sets with
      | .error e => ⟨.error e, clearAllKeys st1, some sets⟩
      | .ok _ => ⟨.ok (), clearAllKeys st1, some sets⟩

lemma clearAllKeys_allKeys {γ κ : Type} (st : CoordState γ κ) :
    (clearAllKeys st).allKeys = [] := by
  rw [clearAllKeys]
  split
  · next h => exact List.isEmpty_iff.mp h
  · rfl

/-- C1: whatever `performRefresh` is called with — and whether reconstruction,
re-splitting or the caller-supplied distribution callback succeeds or fails —
the coordinator's transient secret map is empty when the call returns. -/
theorem performRefresh_clears_allKeys {γ κ σ : Type} [DecidableEq γ]
    (combineFn : List σ → κ) (shareFn : κ → Nat → Nat → List σ)
    (collectedShares : γ → Option (List σ)) (originalMembers newMembers : List γ)
    (distributeFn : List (γ × List (γ × σ)) → Except Err Unit)
    (now : Nat) (st : CoordState γ κ) :
    (performRefresh combineFn shareFn collectedShares originalMembers newMembers
        distributeFn now st).state.allKeys = [] := by
  rw [performRefresh]
  split
  · exact clearAllKeys_allKeys _
  · split
    · exact clearAllKeys_allKeys _
    · split
      · exact clearAllKeys_allKeys _
      · exact clearAllKeys_allKeys _

lemma resplitAllKeys_ok {γ κ σ : Type} (shareFn : κ → Nat → Nat → List σ)
    (newMembers : List γ) (t : Nat) (st : CoordState γ κ)
    (sets : List (γ × List (γ × σ)))
    (h : resplitAllKeys shareFn newMembers t st = .ok sets) :
    sets = resplitSets shareFn newMembers t st.allKeys := by
  rw [resplitAllKeys] at h
  split at h
  · cases h
  · exact (Except.ok.inj h).symm

/-- C9: the share sets handed to the distribution callback by `performRefresh`
are always produced at the fixed threshold 6 (the default of
`resplitAllKeys`; `performRefresh` passes no per-refresh threshold), whatever
the number of incoming members; consequently a refresh onto fewer than 6
incoming members assigns fewer than 6 shares per slot — below the threshold
of the sharing, so no reconstructible sharing can result. -/
theorem performRefresh_threshold_fixed_six {γ κ σ : Type} [DecidableEq γ]
    (combineFn : List σ → κ) (shareFn : κ → Nat → Nat → List σ)
    (collectedShares : γ → Option (List σ)) (originalMembers newMembers : List γ)
    (distributeFn : List (γ × List (γ × σ)) → Except Err Unit)
    (now : Nat) (st : CoordState γ κ) (sets : List (γ × List (γ × σ)))
    (hdist : (performRefresh combineFn shareFn collectedShares originalMembers
        newMembers distributeFn now st).distributed = some sets) :
    (∀ p ∈ sets, ∃ k, p.2 = newMembers.zip (shareFn k newMembers.length 6) ∧
        p.2.length ≤ newMembers.length) ∧
      (newMembers.length < 6 → ∀ p ∈ sets, p.2.length < 6) := by
  have hmain : ∀ p ∈ sets, ∃ k, p.2 = newMembers.zip (shareFn k newMembers.length 6) ∧
      p.2.length ≤ newMembers.length := by
    rw [performRefresh] at hdist
    split at hdist
    · exact absurd hdist (by simp)
    · rename_i st1 hok
      split at hdist
      · exact absurd hdist (by simp)
      · rename_i sets1 hresplit
        have hsets1 : sets1 = resplitSets shareFn newMembers RESPLIT_DEFAULT_THRESHOLD
            st1.allKeys := resplitAllKeys_ok _ _ _ _ _ hresplit
        split at hdist
        all_goals
          simp only at hdist
          obtain rfl : sets1 = sets := Option.some.inj hdist
          intro p hp
          rw [hsets1, resplitSets] at hp
          obtain ⟨q, _, rfl⟩ := List.mem_map.mp hp
          refine ⟨q.2, rfl, ?_⟩
          rw [List.length_zip]
          exact min_le_left _ _
  refine ⟨hmain, fun hlt p hp => ?_⟩
  obtain ⟨k, _, hlen⟩ := hmain p hp
  omega

/-- Witness for `performRefresh_threshold_fixed_six`: a concrete refresh of
one held key onto only 3 incoming members. -/
theorem performRefresh_threshold_fixed_six_witness :
    (performRefresh (fun l => l.sum) (fun k n _ => List.replicate n k)
        (fun a => if a = 0 then some [1, 1, 1, 1, 1, 1] else none) [0] [5, 6, 7]
        (fun _ => .ok ()) 0 (⟨[], none⟩ : CoordState Nat Nat)).distributed
      = some [(0, [(5, 6), (6, 6), (7, 6)])] ∧
    ((∀ p ∈ [((0 : Nat), [((5 : Nat), (6 : Nat)), (6, 6), (7, 6)])],
        ∃ k, p.2 = [5, 6, 7].zip (List.replicate [5, 6, 7].length k) ∧
          p.2.length ≤ [5, 6, 7].length) ∧
      (([5, 6, 7] : List Nat).length < 6 →
        ∀ p ∈ [((0 : Nat), [((5 : Nat), (6 : Nat)), (6, 6), (7, 6)])], p.2.length < 6)) :=
  ⟨by decide,
    performRefresh_threshold_fixed_six (fun l => l.sum) (fun k n _ => List.replicate n k)
      (fun a => if a = 0 then some [1, 1, 1, 1, 1, 1] else none) [0] [5, 6, 7]
      (fun _ => .ok ()) 0 ⟨[], none⟩ [(0, [(5, 6), (6, 6), (7, 6)])] (by decide)⟩

lemma reconLoop_congr {γ κ σ : Type} [DecidableEq γ] (combineFn : List σ → κ)
    (c1 c2 : γ → Option (List σ)) :
    ∀ (members : List γ),
      (∀ a ∈ members, ∃ l1 l2, c1 a = some l1 ∧ c2 a = some l2 ∧
        6 ≤ l1.length ∧ 6 ≤ l2.length ∧ l1.take 6 = l2.take 6) →
      ∀ st : CoordState γ κ,
        reconLoop combineFn c1 members st = reconLoop combineFn c2 members st := by
  intro members
  induction members with
  | nil => intro _ st; rfl
  | cons a rest ih =>
    intro h st
    obtain ⟨l1, l2, h1, h2, hl1, hl2, ht⟩ := h a (by simp)
    rw [reconLoop, reconLoop, h1, h2]
    simp only
    rw [if_neg (by omega), if_neg (by omega), ht]
    exact ih (fun b hb => h b (List.mem_cons_of_mem a hb)) _

/-- C10: `reconstructMyKey` and `reconstructAllKeys` combine exactly the
first 6 shares of each supplied share list: whenever two inputs of length at
least 6 agree on their first 6 elements, the results agree — shares beyond
the sixth never affect the reconstructed key and are never cross-checked
against it. -/
theorem reconstruct_uses_first_six {γ κ σ : Type} [DecidableEq γ]
    (combineFn : List σ → κ) :
    (∀ (s1 s2 : List σ) (now : Nat) (st : SigningState κ),
      6 ≤ s1.length → 6 ≤ s2.length → s1.take 6 = s2.take 6 →
      reconstructMyKey combineFn s1 now st = reconstructMyKey combineFn s2 now st) ∧
    (∀ (c1 c2 : γ → Option (List σ)) (members : List γ) (now : Nat)
        (st : CoordState γ κ),
      (∀ a ∈ members, ∃ l1 l2, c1 a = some l1 ∧ c2 a = some l2 ∧
        6 ≤ l1.length ∧ 6 ≤ l2.length ∧ l1.take 6 = l2.take 6) →
      reconstructAllKeys combineFn c1 members now st
        = reconstructAllKeys combineFn c2 members now st) := by
  constructor
  · intro s1 s2 now st h1 h2 ht
    rw [reconstructMyKey, reconstructMyKey, if_neg (by omega), if_neg (by omega), ht]
  · intro c1 c2 members now st h
    rw [reconstructAllKeys, reconstructAllKeys, reconLoop_congr combineFn c1 c2 members h st]

/-- Witness for `reconstruct_uses_first_six`: appending a junk share to a
6-share list does not change the reconstructed key. -/
theorem reconstruct_uses_first_six_witness :
    (6 ≤ ([1, 2, 3, 4, 5, 6, 100] : List Nat).length ∧
      6 ≤ ([1, 2, 3, 4, 5, 6] : List Nat).length ∧
      ([1, 2, 3, 4, 5, 6, 100] : List Nat).take 6 = [1, 2, 3, 4, 5, 6].take 6) ∧
    reconstructMyKey (fun l => l.sum) [1, 2, 3, 4, 5, 6, 100] 0
        (⟨none, none⟩ : SigningState Nat)
      = reconstructMyKey (fun l => l.sum) [1, 2, 3, 4, 5, 6] 0 ⟨none, none⟩ :=
  ⟨⟨by decide, by decide, by decide⟩,
    (reconstruct_uses_first_six (γ := Nat) (fun l => l.sum)).1
      [1, 2, 3, 4, 5, 6, 100] [1, 2, 3, 4, 5, 6] 0 ⟨none, none⟩
      (by decide) (by decide) (by decide)⟩

/-! ## MoneroShamirMultisig.reconstruct (`monero-shamir.js`, lines 74-91) and
ShamirMultisigManager.reconstructAndSign (`shamir-integration.js`,
lines 115-159) -/

/-- A share object as produced by `generateAndSplit`:
`{ index, share, epoch, threshold, totalShares }` (the opaque share string is
the `share` field, of type `σ`). -/
structure ShamirShareObj (σ : Type) where
  index : Nat
  share : σ
  epoch : Nat
  threshold : Nat
  totalShares : Nat
  deriving DecidableEq, Repr

/-- `MoneroShamirMultisig.reconstruct`: checks only that at least
`shares[0].threshold` shares are present (reading `shares[0]` of an empty
list throws, modelled as an error), then combines all share strings — there
is no epoch or slot consistency check. -/
def msReconstruct {σ κ : Type} (combineFn : List σ → κ)
    (shares : List (ShamirShareObj σ)) : Except Err κ :=
  match shares with
  | [] => .error (.insufficientShares 0)
  | s0 :: _ =>
    if shares.length < s0.threshold then .error (.insufficientShares shares.length)
    else .ok (combineFn (shares.map (fun s => s.share)))

/-- `ShamirMultisigManager.reconstructAndSign`: rejects the share set when the
set of epochs occurring in it has more than one element, then checks the
threshold and reconstructs via `MoneroShamirMultisig.reconstruct`.  Each input
pairs the contributing node address with its share object; the returned value
models the reconstructed private key the signature is derived from. -/
def reconstructAndSign {γ σ κ : Type} (combineFn : List σ → κ)
    (shares : List (γ × ShamirShareObj σ)) : Except Err κ :=
  if 1 < ((shares.map (fun p => p.2.epoch)).toFinset.card) then .error .epochMismatch
  else
    match shares with
    | [] => .error (.insufficientShares 0)
    | s0 :: _ =>
      if shares.length < s0.2.threshold then .error (.insufficientShares shares.length)
      else msReconstruct combineFn (shares.map (fun p => p.2))

/-- C3 counterexample: the union of two epoch-0 shares and two epoch-1 shares
(threshold 2, so each epoch's set individually meets K) is combined by
`MoneroShamirMultisig.reconstruct` without any error — it returns a secret
instead of failing with an inconsistent-share-set error. -/
theorem msReconstruct_mixed_epochs_succeeds :
    msReconstruct (fun l => l.sum)
        [⟨1, 10, 0, 2, 2⟩, ⟨2, 20, 0, 2, 2⟩, ⟨1, 30, 1, 2, 2⟩,
          (⟨2, 40, 1, 2, 2⟩ : ShamirShareObj Nat)]
      = .ok 100 := rfl

/-- C3 amended: the manager-level `reconstructAndSign` does enforce epoch
isolation — whenever the supplied share set contains two shares of different
epochs it fails with the epoch-mismatch error and never returns a secret. -/
theorem reconstructAndSign_epoch_isolation {γ σ κ : Type}
    (combineFn : List σ → κ) (shares : List (γ × ShamirShareObj σ))
    (p q : γ × ShamirShareObj σ) (hp : p ∈ shares) (hq : q ∈ shares)
    (hne : p.2.epoch ≠ q.2.epoch) :
    reconstructAndSign combineFn shares = .error .epochMismatch := by
  unfold reconstructAndSign
  rw [if_pos]
  rw [Finset.one_lt_card]
  refine ⟨p.2.epoch, ?_, q.2.epoch, ?_, hne⟩
  · exact List.mem_toFinset.mpr (List.mem_map.mpr ⟨p, hp, rfl⟩)
  · exact List.mem_toFinset.mpr (List.mem_map.mpr ⟨q, hq, rfl⟩)

/-- Witness for `reconstructAndSign_epoch_isolation`: a concrete 4-share set
mixing epochs 0 and 1. -/
theorem reconstructAndSign_epoch_isolation_witness :
    ((0, (⟨1, 10, 0, 2, 2⟩ : ShamirShareObj Nat))
        ∈ [((0 : Nat), (⟨1, 10, 0, 2, 2⟩ : ShamirShareObj Nat)), (1, ⟨2, 20, 0, 2, 2⟩),
          (2, ⟨1, 30, 1, 2, 2⟩), (3, ⟨2, 40, 1, 2, 2⟩)] ∧
      (2, (⟨1, 30, 1, 2, 2⟩ : ShamirShareObj Nat))
        ∈ [((0 : Nat), (⟨1, 10, 0, 2, 2⟩ : ShamirShareObj Nat)), (1, ⟨2, 20, 0, 2, 2⟩),
          (2, ⟨1, 30, 1, 2, 2⟩), (3, ⟨2, 40, 1, 2, 2⟩)] ∧
      ((0 : Nat), (⟨1, 10, 0, 2, 2⟩ : ShamirShareObj Nat)).2.epoch
        ≠ ((2 : Nat), (⟨1, 30, 1, 2, 2⟩ : ShamirShareObj Nat)).2.epoch) ∧
    reconstructAndSign (fun l => l.sum)
        [((0 : Nat), (⟨1, 10, 0, 2, 2⟩ : ShamirShareObj Nat)), (1, ⟨2, 20, 0, 2, 2⟩),
          (2, ⟨1, 30, 1, 2, 2⟩), (3, ⟨2, 40, 1, 2, 2⟩)]
      = .error .epochMismatch :=
  ⟨⟨by decide, by decide, by decide⟩,
    reconstructAndSign_epoch_isolation (fun l => l.sum)
      [(0, ⟨1, 10, 0, 2, 2⟩), (1, ⟨2, 20, 0, 2, 2⟩), (2, ⟨1, 30, 1, 2, 2⟩),
        (3, ⟨2, 40, 1, 2, 2⟩)]
      (0, ⟨1, 10, 0, 2, 2⟩) (2, ⟨1, 30, 1, 2, 2⟩) (by decide) (by decide) (by decide)⟩

/-! ## KeyOwnershipManager (`key-ownership-manager.js`) -/

/-- The fixed slot count (`TOTAL_KEYS` in the JS constructor). -/
def TOTAL_KEYS : Nat := 11

/-- State of the ownership registry: the two maps `keyOwnership`
(slot → owner) and `nodeToKey` (node → slot), modelled as functions into
`Option`. -/
structure OwnState (γ : Type) where
  keyOwnership : Nat → Option γ
  nodeToKey : γ → Option Nat

/-- The registry state right after the constructor: both maps empty. -/
def genesisOwn {γ : Type} : OwnState γ :=
  { keyOwnership := fun _ => none, nodeToKey := fun _ => none }

/-- One iteration of the `initializeOwnership` loop: assign slot `i` to
`originalNodes[i]` in both maps. -/
def initStep {γ : Type} [DecidableEq γ] (nodes : List γ) (st : OwnState γ)
    (i : Nat) : OwnState γ :=
  { keyOwnership := fun j => if j = i then nodes.get? i else st.keyOwnership j,
    nodeToKey := fun a => if nodes.get? i = some a then some i else st.nodeToKey a }

/-- `KeyOwnershipManager.initializeOwnership`: fails with a cardinality
mismatch when the node list does not have exactly `TOTAL_KEYS` entries,
otherwise assigns slot `i` to `nodes[i]` for every `i` — with no check that
the registry was not already initialized. -/
def initializeOwnership {γ : Type} [DecidableEq γ] (nodes : List γ)
    (st : OwnState γ) : Except Err (OwnState γ) :=
  if nodes.length ≠ TOTAL_KEYS then .error (.cardinalityMismatch nodes.length)
  else .ok ((List.range TOTAL_KEYS).foldl (initStep nodes) st)

/-- `KeyOwnershipManager.transferKey`: fails when the leaving node owns no
slot; otherwise reassigns that slot to the joining node (delete the leaving
node's entry, then insert the joining node's). -/
def transferKey {γ : Type} [DecidableEq γ] (leaving joining : γ)
    (st : OwnState γ) : Except Err (Nat × OwnState γ) :=
  match st.nodeToKey leaving with
  | none => .error .unknownOwner
  | some i => .ok (i,
      { keyOwnership := fun j => if j = i then some joining else st.keyOwnership j,
        nodeToKey := fun a =>
          if a = joining then some i
          else if a = leaving then none
          else st.nodeToKey a })

/-- One `transferKey` call in a sequence: a failing call mutates nothing
(the JS method throws before any write). -/
def transferStep {γ : Type} [DecidableEq γ] (st : OwnState γ) (op : γ × γ) :
    OwnState γ :=
  match transferKey op.1 op.2 st with
  | .ok (_, st1) => st1
  | .error _ => st

/-- `KeyOwnershipManager.verifyAllKeysOwned`: every slot `0..TOTAL_KEYS-1`
has an owner. -/
def verifyAllKeysOwned {γ : Type} (st : OwnState γ) : Bool :=
  (List.range TOTAL_KEYS).all (fun i => (st.keyOwnership i).isSome)

lemma initFold_owner {γ : Type} [DecidableEq γ] (nodes : List γ) :
    ∀ (l : List Nat) (st : OwnState γ) (j : Nat),
      ((l.foldl (initStep nodes) st).keyOwnership j)
        = if j ∈ l then nodes.get? j else st.keyOwnership j := by
  intro l
  induction l with
  | nil => intro st j; simp
  | cons i rest ih =>
    intro st j
    rw [List.foldl_cons, ih]
    by_cases hr : j ∈ rest
    · simp [hr]
    · by_cases hj : j = i
      · subst hj
        simp [hr, initStep]
      · simp [hr, hj, initStep]

lemma initFold_node {γ : Type} [DecidableEq γ] (nodes : List γ) :
    ∀ (l : List Nat) (st : OwnState γ) (a : γ) (i : Nat),
      ((l.foldl (initStep nodes) st).nodeToKey a) = some i →
        i ∈ l ∨ st.nodeToKey a = some i := by
  intro l
  induction l with
  | nil => intro st a i h; exact Or.inr h
  | cons b rest ih =>
    intro st a i h
    rw [List.foldl_cons] at h
    rcases ih _ a i h with hr | hstep
    · exact Or.inl (List.mem_cons_of_mem b hr)
    · rw [initStep] at hstep
      simp only at hstep
      split at hstep
      · exact Or.inl (by simp [Option.some.inj hstep])
      · exact Or.inr hstep

/-- The invariant maintained by the ownership registry: the owned slots are
exactly `0..TOTAL_KEYS-1` and `nodeToKey` only points at valid slots. -/
def OwnInv {γ : Type} (st : OwnState γ) : Prop :=
  (∀ j, (st.keyOwnership j).isSome ↔ j < TOTAL_KEYS) ∧
    (∀ a i, st.nodeToKey a = some i → i < TOTAL_KEYS)

lemma ownInv_init {γ : Type} [DecidableEq γ] (nodes : List γ) (st : OwnState γ)
    (h : initializeOwnership nodes genesisOwn = .ok st) : OwnInv st := by
  rw [initializeOwnership] at h
  split at h
  · cases h
  · next hlen =>
    have hlen11 : nodes.length = TOTAL_KEYS := by omega
    obtain rfl : (List.range TOTAL_KEYS).foldl (initStep nodes) genesisOwn = st :=
      Except.ok.inj h
    constructor
    · intro j
      rw [initFold_owner]
      by_cases hj : j < TOTAL_KEYS
      · have hj2 : j < nodes.length := by omega
        simp [List.mem_range.mpr hj, List.getElem?_eq_getElem hj2, hj]
      · have : j ∉ List.range TOTAL_KEYS := by simp [List.mem_range]; omega
        simp [this, genesisOwn, hj]
    · intro a i h2
      rcases initFold_node nodes _ _ a i h2 with hr | hg
      · exact List.mem_range.mp hr
      · simp [genesisOwn] at hg

lemma transferKey_ok {γ : Type} [DecidableEq γ] (l j : γ) (st : OwnState γ)
    (i : Nat) (st1 : OwnState γ) (h : transferKey l j st = .ok (i, st1)) :
    st.nodeToKey l = some i ∧
      st1.keyOwnership = (fun m => if m = i then some j else st.keyOwnership m) ∧
      st1.nodeToKey = (fun a =>
        if a = j then some i else if a = l then none else st.nodeToKey a) := by
  rw [transferKey] at h
  rcases hlk : st.nodeToKey l with _ | k
  · rw [hlk] at h
    cases h
  · rw [hlk] at h
    simp only at h
    have h2 := Except.ok.inj h
    injection h2 with hk hst
    subst hk
    subst hst
    exact ⟨rfl, rfl, rfl⟩

lemma ownInv_transferStep {γ : Type} [DecidableEq γ] (st : OwnState γ)
    (op : γ × γ) (hinv : OwnInv st) : OwnInv (transferStep st op) := by
  rw [transferStep]
  rcases h : transferKey op.1 op.2 st with e | ⟨i, st1⟩
  · exact hinv
  · show OwnInv st1
    obtain ⟨hlk, hko, hnk⟩ := transferKey_ok op.1 op.2 st i st1 h
    have hk : i < TOTAL_KEYS := hinv.2 op.1 i hlk
    constructor
    · intro j
      rw [hko]
      by_cases hj : j = i
      · subst hj; simpa using hk
      · simpa [hj] using hinv.1 j
    · intro a m hm
      rw [hnk] at hm
      simp only at hm
      by_cases ha : a = op.2
      · rw [if_pos ha] at hm
        exact Option.some.inj hm ▸ hk
      · rw [if_neg ha] at hm
        by_cases hl : a = op.1
        · rw [if_pos hl] at hm; cases hm
        · rw [if_neg hl] at hm
          exact hinv.2 a m hm

lemma ownInv_foldl {γ : Type} [DecidableEq γ] (ops : List (γ × γ))
    (st : OwnState γ) (hinv : OwnInv st) :
    OwnInv (ops.foldl transferStep st) := by
  induction ops generalizing st with
  | nil => exact hinv
  | cons op rest ih =>
    rw [List.foldl_cons]
    exact ih _ (ownInv_transferStep st op hinv)

/-- C6: after a successful `initializeOwnership` on exactly `TOTAL_KEYS`
nodes, `verifyAllKeysOwned` succeeds; and after any sequence of
`transferKey` calls the owned slot set is unchanged (still exactly
`0..TOTAL_KEYS-1`), every slot has exactly one owner, and
`verifyAllKeysOwned` still succeeds. -/
theorem ownership_complete_after_transfers {γ : Type} [DecidableEq γ]
    (nodes : List γ) (st0 : OwnState γ)
    (hinit : initializeOwnership nodes genesisOwn = .ok st0)
    (ops : List (γ × γ)) :
    verifyAllKeysOwned st0 = true ∧
      (∀ j, (((ops.foldl transferStep st0).keyOwnership j).isSome ↔ j < TOTAL_KEYS)) ∧
      (∀ j < TOTAL_KEYS, ∃! a, (ops.foldl transferStep st0).keyOwnership j = some a) ∧
      verifyAllKeysOwned (ops.foldl transferStep st0) = true := by
  have h0 : OwnInv st0 := ownInv_init nodes st0 hinit
  have hN : OwnInv (ops.foldl transferStep st0) := ownInv_foldl ops st0 h0
  have hverify : ∀ st : OwnState γ, OwnInv st → verifyAllKeysOwned st = true := by
    intro st hinv
    rw [verifyAllKeysOwned, List.all_eq_true]
    intro i hi
    exact (hinv.1 i).mpr (List.mem_range.mp hi)
  refine ⟨hverify st0 h0, hN.1, ?_, hverify _ hN⟩
  intro j hj
  obtain ⟨a, ha⟩ := Option.isSome_iff_exists.mp ((hN.1 j).mpr hj)
  exact ⟨a, ha, fun b hb => by rw [ha] at hb; exact (Option.some.inj hb).symm⟩

/-- Witness for `ownership_complete_after_transfers`: eleven concrete nodes,
then a transfer of node 0's slot to a fresh node 100 followed by a transfer
to an existing node. -/
theorem ownership_complete_after_transfers_witness :
    (initializeOwnership [0, 1, 2, 3, 4, 5, 6, 7, 8, 9, 10] (genesisOwn (γ := Nat))).map
        (fun st0 => verifyAllKeysOwned
          (([(0, 100), (100, 1)] : List (Nat × Nat)).foldl transferStep st0))
      = .ok true := by
  rcases hinit : initializeOwnership [0, 1, 2, 3, 4, 5, 6, 7, 8, 9, 10]
      (genesisOwn (γ := Nat)) with e | st0
  · exfalso
    rw [initializeOwnership] at hinit
    simp [TOTAL_KEYS] at hinit
  · have h := (ownership_complete_after_transfers
      [0, 1, 2, 3, 4, 5, 6, 7, 8, 9, 10] st0 hinit [(0, 100), (100, 1)]).2.2.2
    simp only [Except.map]
    rw [h]

/-- C8 counterexample: after a successful initialization on eleven nodes,
`initializeOwnership` called a second time with another valid eleven-node
list does not fail — it succeeds and reassigns slot 0 to the new list's first
node (`100`). -/
theorem second_initialize_succeeds :
    ((initializeOwnership (List.range 11) (genesisOwn (γ := Nat))).bind
        (fun st1 => initializeOwnership ((List.range 11).map (fun a => a + 100)) st1)).map
        (fun st2 => st2.keyOwnership 0)
      = .ok (some 100) := by
  rfl

/-- C8 amended: `initializeOwnership` fails with a cardinality mismatch
whenever the node list length differs from the slot count, but it has no
genesis-only guard: after a successful initialization, a second call with a
valid list of `TOTAL_KEYS` nodes succeeds again and reassigns every slot to
the new list. -/
theorem initialize_cardinality_and_reinit {γ : Type} [DecidableEq γ]
    (nodes1 nodes2 : List γ) (st : OwnState γ)
    (h1 : nodes1.length = TOTAL_KEYS) (h2 : nodes2.length = TOTAL_KEYS) :
    (∀ (m : List γ) (s : OwnState γ), m.length ≠ TOTAL_KEYS →
      initializeOwnership m s = .error (.cardinalityMismatch m.length)) ∧
    (∃ st1, initializeOwnership nodes1 st = .ok st1 ∧
      ∃ st2, initializeOwnership nodes2 st1 = .ok st2 ∧
        ∀ i < TOTAL_KEYS, st2.keyOwnership i = nodes2.get? i) := by
  constructor
  · intro m s hm
    rw [initializeOwnership, if_pos hm]
  · refine ⟨(List.range TOTAL_KEYS).foldl (initStep nodes1) st,
      by rw [initializeOwnership, if_neg (by omega)], ?_⟩
    refine ⟨(List.range TOTAL_KEYS).foldl (initStep nodes2)
      ((List.range TOTAL_KEYS).foldl (initStep nodes1) st),
      by rw [initializeOwnership, if_neg (by omega)], ?_⟩
    intro i hi
    rw [initFold_owner]
    simp [List.mem_range.mpr hi]

/-- Witness for `initialize_cardinality_and_reinit`: two concrete eleven-node
lists. -/
theorem initialize_cardinality_and_reinit_witness :
    ((List.range 11).length = TOTAL_KEYS ∧
      ((List.range 11).map (fun a => a + 100)).length = TOTAL_KEYS) ∧
    ((∀ (m : List Nat) (s : OwnState Nat), m.length ≠ TOTAL_KEYS →
        initializeOwnership m s = .error (.cardinalityMismatch m.length)) ∧
      (∃ st1, initializeOwnership (List.range 11) (genesisOwn (γ := Nat)) = .ok st1 ∧
        ∃ st2, initializeOwnership ((List.range 11).map (fun a => a + 100)) st1 = .ok st2 ∧
          ∀ i < TOTAL_KEYS,
            st2.keyOwnership i = ((List.range 11).map (fun a => a + 100)).get? i)) :=
  ⟨⟨by decide, by decide⟩,
    initialize_cardinality_and_reinit (List.range 11)
      ((List.range 11).map (fun a => a + 100)) genesisOwn (by decide) (by decide)⟩

/-! ## CrossClusterBackupManager (`reset-registry.js`, second file:
`CrossClusterBackupManager`) -/

/-- `BACKUP_THRESHOLD` from the `CrossClusterBackupManager` constructor. -/
def BACKUP_THRESHOLD : Nat := 3

/-- `BACKUP_TOTAL` from the `CrossClusterBackupManager` constructor. -/
def BACKUP_TOTAL : Nat := 5

/-- `CrossClusterBackupManager.combinePrimaryAndBackup`: for each of the 11
key slots, gather the surviving primary shares present for that slot; when at
least `BACKUP_THRESHOLD` backup fragments are present for the slot,
reconstruct the slot secret from the first `BACKUP_THRESHOLD` of them,
re-split it 6-of-11 with the splitter, and append just enough
(`max 0 (6 - |primaries|)`) of the fresh shares to the surviving primaries. -/
def combinePrimaryAndBackup {σ κ : Type} (combineFn : List σ → κ)
    (shareFn : κ → Nat → Nat → List σ)
    (primaryShares backupShares : List (List (Option σ))) : List (List σ) :=
  (List.range 11).map (fun keyIndex =>
    if BACKUP_THRESHOLD ≤ (backupShares.filterMap (fun b => b.getD keyIndex none)).length then
      primaryShares.filterMap (fun ns => ns.getD keyIndex none) ++
        (shareFn (combineFn ((backupShares.filterMap (fun b => b.getD keyIndex none)).take
            BACKUP_THRESHOLD)) 11 6).take
          (6 - (primaryShares.filterMap (fun ns => ns.getD keyIndex none)).length)
    else primaryShares.filterMap (fun ns => ns.getD keyIndex none))

/-- `CrossClusterBackupManager.recoverFromCatastrophicFailure`: fails
(`null`) when no backup nodes are registered or fewer than
`BACKUP_THRESHOLD` backup fragment bundles were collected from the other
groups; otherwise returns the augmented share set.  The on-chain backup-node
list and the bundles collected over the P2P transport are parameters. -/
def recoverFromCatastrophicFailure {σ κ β : Type} (combineFn : List σ → κ)
    (shareFn : κ → Nat → Nat → List σ) (backupNodes : List β)
    (collected : List (List (Option σ)))
    (remainingPrimaryShares : List (List (Option σ))) : Option (List (List σ)) :=
  if backupNodes.isEmpty then none
  else if collected.length < BACKUP_THRESHOLD then none
  else some (combinePrimaryAndBackup combineFn shareFn remainingPrimaryShares collected)

lemma filterMap_getD_full {σ : Type} :
    ∀ (l : List (List (Option σ))) (k : Nat),
      (∀ b ∈ l, b.getD k none ≠ none) →
      (l.filterMap (fun b => b.getD k none)).length = l.length := by
  intro l
  induction l with
  | nil => intro k _; rfl
  | cons b rest ih =>
    intro k h
    rcases hb : b.getD k none with _ | v
    · exact absurd hb (h b (by simp))
    · rw [List.filterMap_cons, hb, List.length_cons, ih k (fun c hc => h c (by simp [hc])),
        List.length_cons]

/-- C5 amended (count part): with at least `BACKUP_THRESHOLD` backup bundles
collected, each covering every slot, `recoverFromCatastrophicFailure` returns
an augmented share set with at least 6 shares per slot; with only 2 bundles
collected it returns failure (`none`). -/
theorem recover_backup_threshold_counts {σ κ β : Type} (combineFn : List σ → κ)
    (shareFn : κ → Nat → Nat → List σ)
    (hshare : ∀ k, (shareFn k 11 6).length = 11)
    (backupNodes : List β) (hb : backupNodes ≠ [])
    (primary : List (List (Option σ))) :
    (∀ collected : List (List (Option σ)), 3 ≤ collected.length →
      (∀ b ∈ collected, ∀ k < 11, b.getD k none ≠ none) →
      ∃ aug, recoverFromCatastrophicFailure combineFn shareFn backupNodes collected
          primary = some aug ∧
        aug.length = 11 ∧ ∀ ss ∈ aug, 6 ≤ ss.length) ∧
    (∀ collected : List (List (Option σ)), collected.length = 2 →
      recoverFromCatastrophicFailure combineFn shareFn backupNodes collected
        primary = none) := by
  have hbne : backupNodes.isEmpty = false := by
    rcases backupNodes with _ | ⟨a, rest⟩
    · exact absurd rfl hb
    · rfl
  constructor
  · intro collected hcol hcov
    refine ⟨combinePrimaryAndBackup combineFn shareFn primary collected, ?_, ?_, ?_⟩
    · rw [recoverFromCatastrophicFailure, hbne]
      rw [if_neg (by simp)]
      rw [if_neg (by rw [BACKUP_THRESHOLD]; omega)]
    · rw [combinePrimaryAndBackup, List.length_map, List.length_range]
    · intro ss hss
      rw [combinePrimaryAndBackup] at hss
      obtain ⟨k, hk, rfl⟩ := List.mem_map.mp hss
      have hk11 : k < 11 := List.mem_range.mp hk
      have hbk : (collected.filterMap (fun b => b.getD k none)).length = collected.length :=
        filterMap_getD_full collected k (fun b hb2 => hcov b hb2 k hk11)
      rw [if_pos (by rw [hbk, BACKUP_THRESHOLD]; omega)]
      rw [List.length_append, List.length_take, hshare]
      omega
  · intro collected hcol
    rw [recoverFromCatastrophicFailure, hbne]
    rw [if_neg (by simp)]
    rw [if_pos (by rw [BACKUP_THRESHOLD]; omega)]

/-- Witness for `recover_backup_threshold_counts`: a concrete instantiation
with full 3-bundle coverage, and a concrete 2-bundle failure. -/
theorem recover_backup_threshold_counts_witness :
    ((∀ k : Nat, (List.replicate 11 k).length = 11) ∧ ([0] : List Nat) ≠ []) ∧
    ((∀ collected : List (List (Option Nat)), 3 ≤ collected.length →
        (∀ b ∈ collected, ∀ k < 11, b.getD k none ≠ none) →
        ∃ aug, recoverFromCatastrophicFailure (fun l => l.sum)
            (fun k _ _ => List.replicate 11 k) [0] collected [] = some aug ∧
          aug.length = 11 ∧ ∀ ss ∈ aug, 6 ≤ ss.length) ∧
      (∀ collected : List (List (Option Nat)), collected.length = 2 →
        recoverFromCatastrophicFailure (fun l => l.sum)
          (fun k _ _ => List.replicate 11 k) [0] collected [] = none)) :=
  ⟨⟨fun _ => rfl, by decide⟩,
    recover_backup_threshold_counts (fun l => l.sum) (fun k _ _ => List.replicate 11 k)
      (fun _ => rfl) [0] (by decide) []⟩

/-- Modelled from the spec: `combine` on a concrete list of share points,
i.e. Lagrange interpolation through the listed `(x, y)` points evaluated at
`0` (list version of `combineOn`, for distinct `x` coordinates). -/
def listCombine {F : Type} [Field F] [DecidableEq F] (pts : List (F × F)) : F :=
  (pts.map (fun p => p.2 *
    ((pts.filter (fun q => q.1 ≠ p.1)).map (fun q => q.1 * (q.1 - p.1)⁻¹)).prod)).sum

/-- Kernel-computable variant of `listCombine` over `ZMod 13`, with the field
inverse replaced by the eleventh power (Fermat). -/
def listCombine13 (pts : List (ZMod 13 × ZMod 13)) : ZMod 13 :=
  (pts.map (fun p => p.2 *
    ((pts.filter (fun q => q.1 ≠ p.1)).map (fun q => q.1 * (q.1 - p.1) ^ 11)).prod)).sum

lemma zmod13_pow_eleven_eq_inv (a : ZMod 13) : a ^ 11 = a⁻¹ := by
  by_cases h : a = 0
  · subst h
    simp
  · have h12 : a ^ 12 = 1 := ZMod.pow_card_sub_one_eq_one h
    have hm : a * a ^ 11 = 1 := by
      rw [← pow_succ']
      exact h12
    exact (inv_eq_of_mul_eq_one_right hm).symm

lemma listCombine13_eq (pts : List (ZMod 13 × ZMod 13)) :
    listCombine13 pts = listCombine pts := by
  rw [listCombine13, listCombine]
  congr 1
  refine List.map_congr_left (fun p _ => ?_)
  congr 1
  congr 1
  exact List.map_congr_left (fun q _ => by rw [zmod13_pow_eleven_eq_inv])

lemma listCombine_eq_fun : (listCombine : List (ZMod 13 × ZMod 13) → ZMod 13)
    = listCombine13 :=
  funext (fun pts => (listCombine13_eq pts).symm)

/-- The primary 6-of-11 sharing of the slot secret `7` used in the C5
counterexample scenario: the degree-5 polynomial with tail `[1,1,1,1,1]`. -/
def cex5old (x : ZMod 13) : ZMod 13 := shamirShare 7 [1, 1, 1, 1, 1] x

/-- The 3-of-5 backup sharing of the same slot secret `7`: the degree-2
polynomial with tail `[1,1]`. -/
def cex5bk (x : ZMod 13) : ZMod 13 := shamirShare 7 [1, 1] x

/-- A possible behaviour of the splitter when `combinePrimaryAndBackup`
re-splits the backup-reconstructed secret: a fresh valid sharing along the
degree-5 polynomial with tail `[2,2,2,2,2]`, at points `1..n`. -/
def cex5share (k : ZMod 13) (n _t : Nat) : List (ZMod 13 × ZMod 13) :=
  (List.range n).map (fun i =>
    (((i + 1 : Nat) : ZMod 13), shamirShare k [2, 2, 2, 2, 2] (((i + 1 : Nat) : ZMod 13))))

/-- The five surviving members' shares (points `7..11` of the primary
sharing), identical for each of the 11 slots. -/
def cex5primary : List (List (Option (ZMod 13 × ZMod 13))) :=
  (List.range 5).map (fun j =>
    List.replicate 11 (some (((j + 7 : Nat) : ZMod 13), cex5old (((j + 7 : Nat) : ZMod 13)))))

/-- The three collected backup fragment bundles (points `1..3` of the backup
sharing), identical for each of the 11 slots. -/
def cex5collected : List (List (Option (ZMod 13 × ZMod 13))) :=
  (List.range 3).map (fun b =>
    List.replicate 11 (some (((b + 1 : Nat) : ZMod 13), cex5bk (((b + 1 : Nat) : ZMod 13)))))

/-- The recovery run of the C5 counterexample scenario. -/
def cex5out : Option (List (List (ZMod 13 × ZMod 13))) :=
  recoverFromCatastrophicFailure listCombine cex5share [0] cex5collected cex5primary

/-- C5 counterexample: in a concrete 6-of-11 / 3-of-5 scenario where the
collected backup fragments genuinely reconstruct the slot secret `7` (fourth
conjunct) and the primary sharing is a genuine 6-of-11 sharing of `7` (fifth
conjunct), `recoverFromCatastrophicFailure` succeeds and returns 6 shares for
slot 0 — but combining those 6 shares does not yield the slot secret: the
fill-up share comes from a fresh re-split and is not consistent with the five
surviving primary shares, so the augmented set is not usable to reconstruct
the slot secret. -/
theorem recovered_shareset_not_combinable :
    cex5out.isSome = true ∧
    ((cex5out.getD []).getD 0 []).length = 6 ∧
    listCombine ((cex5out.getD []).getD 0 []) ≠ 7 ∧
    listCombine [(1, cex5bk 1), (2, cex5bk 2), (3, cex5bk 3)] = 7 ∧
    listCombine [(6, cex5old 6), (7, cex5old 7), (8, cex5old 8), (9, cex5old 9),
      (10, cex5old 10), (11, cex5old 11)] = 7 := by
  refine ⟨?_, ?_, ?_, ?_, ?_⟩
  · rw [cex5out, listCombine_eq_fun]
    decide
  · rw [cex5out, listCombine_eq_fun]
    decide
  · rw [cex5out, listCombine_eq_fun]
    decide
  · rw [listCombine_eq_fun]
    decide
  · rw [listCombine_eq_fun]
    decide

/-! ## CrossClusterBackupManager.createBackupShares (`reset-registry.js`) -/

/-- The dynamic type of the value returned by the splitter's `combine`: in JS
it is either a hex string or a `Buffer`.  `secrets.combine` returns a hex
string (the spec's concrete example combines to "the original hex string",
and every caller in the repository treats the result as a string). -/
inductive CombResult (κ : Type) where
  | str (v : κ)
  | buf (v : κ)
  deriving DecidableEq, Repr

/-- `Buffer.isBuffer`. -/
def isBuffer {κ : Type} : CombResult κ → Bool
  | .str _ => false
  | .buf _ => true

/-- `CrossClusterBackupManager.createBackupShares`: for each of the 11 slots,
combines the primary shares into the slot secret, re-splits it
3-of-5, and zeroes the transient reconstruction only when
`Buffer.isBuffer(reconstructedKey)` holds.  The first component is the
returned per-backup-index share bundles; the second counts how many transient
reconstructions were actually zeroed (`fill(0)` executions) before
returning. -/
def createBackupShares {σ κ : Type} [Inhabited σ] (combineFn : List σ → CombResult κ)
    (shareFn : CombResult κ → Nat → Nat → List σ) (primaryShares : List (List σ)) :
    List (List σ) × Nat :=
  ((List.range BACKUP_TOTAL).map (fun backupIndex =>
      ((List.range 11).map (fun keyIndex =>
        shareFn (combineFn (primaryShares.map (fun ns => ns.getD keyIndex default)))
          BACKUP_TOTAL BACKUP_THRESHOLD)).map
        (fun shareSet => shareSet.getD backupIndex default)),
    ((List.range 11).map (fun keyIndex =>
      if isBuffer (combineFn (primaryShares.map (fun ns => ns.getD keyIndex default)))
      then 1 else 0)).sum)

/-- C7 (code bug evidence): because the splitter's `combine` returns a hex
string — never a `Buffer` — the `Buffer.isBuffer` guard in
`createBackupShares` is always false and the transient slot reconstructions
are never zeroed before the function returns, for every input. -/
theorem createBackupShares_zeroing_dead {σ κ : Type} [Inhabited σ]
    (combineFn : List σ → CombResult κ) (shareFn : CombResult κ → Nat → Nat → List σ)
    (primaryShares : List (List σ))
    (hstr : ∀ l, isBuffer (combineFn l) = false) :
    (createBackupShares combineFn shareFn primaryShares).2 = 0 := by
  rw [createBackupShares]
  refine List.sum_eq_zero (fun n hn => ?_)
  obtain ⟨k, _, rfl⟩ := List.mem_map.mp hn
  rw [hstr]
  rfl

/-- Witness for `createBackupShares_zeroing_dead`: a concrete string-returning
combiner and a concrete 11x11 primary share matrix. -/
theorem createBackupShares_zeroing_dead_witness :
    (∀ l : List Nat, isBuffer ((fun l => CombResult.str l.sum) l) = false) ∧
    (createBackupShares (fun l => CombResult.str l.sum)
        (fun _ n _ => List.replicate n 0)
        (List.replicate 11 (List.replicate 11 7))).2 = 0 :=
  ⟨fun _ => rfl,
    createBackupShares_zeroing_dead (fun l => CombResult.str l.sum)
      (fun _ n _ => List.replicate n 0) (List.replicate 11 (List.replicate 11 7))
      (fun _ => rfl)⟩

end Znode
